import Mathlib

/-!
Verification of the coordinate-marker image editor (`ImageEditor` component).

The editor's state lives in parent-owned React state: a coordinate list,
an undo stack, a redo stack, the armed area selection, and a transient
drag session (a ref holding the dragged index plus the initial pointer
position).  The event handlers are pure state transformers over that data,
so we embed them as functions on an explicit state record.

JavaScript numbers are modelled as rationals (`ℚ`); coordinates are
computed with exact field arithmetic.  JavaScript object identity (the
`!==` comparison used by `handleUndo`'s filter, and the fresh object
created by the `{...coord, x, y}` spread in `handleDrag`) is modelled by
an allocation id carried on every marker: every object creation draws a
fresh id from a counter, and reference equality is id equality.
-/

/-- A placed annotation.  `id` models the JavaScript object's identity
(reference); `x`, `y`, `area` are the object's fields. -/
structure Marker where
  id : Nat
  x : ℚ
  y : ℚ
  area : String
deriving DecidableEq, Repr

/-- The rendered bounding box of the background image, as returned by
`getBoundingClientRect()` at the moment an event fires. -/
structure Rect where
  left : ℚ
  top : ℚ
  width : ℚ
  height : ℚ
deriving DecidableEq, Repr

/-- The editor's mutable state: the props-owned `coordinates`,
`undoStack`, `redoStack`, `selectedArea` plus the component-local refs
`dragItemRef`, `dragStartX`, `dragStartY`.  `nextId` is the allocation
counter backing the object-identity model. -/
structure EditorState where
  coordinates : List Marker
  undoStack : List Marker
  redoStack : List Marker
  selectedArea : String
  dragItem : Option Nat
  dragStartX : ℚ
  dragStartY : ℚ
  nextId : Nat
deriving DecidableEq, Repr

/-- `((e.clientX - rect.left) / rect.width) * 100`. -/
def normX (rect : Rect) (clientX : ℚ) : ℚ :=
  (clientX - rect.left) / rect.width * 100

/-- `((e.clientY - rect.top) / rect.height) * 100`. -/
def normY (rect : Rect) (clientY : ℚ) : ℚ :=
  (clientY - rect.top) / rect.height * 100

/-- `handleImageClick`: if no area is selected (`!selectedArea`, i.e. the
empty string) do nothing; otherwise compute the normalized position,
append the fresh marker to `coordinates`, push the same object onto
`undoStack`, and clear `redoStack`. -/
def handleImageClick (s : EditorState) (rect : Rect) (clientX clientY : ℚ) :
    EditorState :=
  if s.selectedArea = "" then s
  else
    let x := normX rect clientX
    let y := normY rect clientY
    let newCoord : Marker := ⟨s.nextId, x, y, s.selectedArea⟩
    { s with
      coordinates := s.coordinates ++ [newCoord]
      undoStack := s.undoStack ++ [newCoord]
      redoStack := []
      nextId := s.nextId + 1 }

/-- `handleDragStart`: record the dragged index and the initial pointer
position in the refs. -/
def handleDragStart (s : EditorState) (index : Nat) (clientX clientY : ℚ) :
    EditorState :=
  { s with dragItem := some index, dragStartX := clientX, dragStartY := clientY }

/-- JavaScript's `Array.prototype.map` with the element index passed to the
callback, starting the index count at `k`. -/
def jsMapIdxFrom (f : Nat → Marker → Marker) : Nat → List Marker → List Marker
  | _, [] => []
  | k, c :: cs => f k c :: jsMapIdxFrom f (k + 1) cs

/-- `prev.map((coord, index) => ...)`. -/
def jsMapIdx (f : Nat → Marker → Marker) (l : List Marker) : List Marker :=
  jsMapIdxFrom f 0 l

/-- `handleDrag`: if no drag session is active do nothing; otherwise
recompute the normalized position, discard the event when it falls outside
`[0, 100]`, and otherwise map over the list replacing the entry at the
dragged index by the fresh object `{...coord, x, y}`. -/
def handleDrag (s : EditorState) (rect : Rect) (clientX clientY : ℚ) :
    EditorState :=
  match s.dragItem with
  | none => s
  | some i =>
    let x := normX rect clientX
    let y := normY rect clientY
    if x < 0 ∨ x > 100 ∨ y < 0 ∨ y > 100 then s
    else
      { s with
        coordinates :=
          jsMapIdx
            (fun j c => if j = i then { c with x := x, y := y, id := s.nextId } else c)
            s.coordinates
        nextId := s.nextId + 1 }

/-- `handleDragEnd`: clear the drag session. -/
def handleDragEnd (s : EditorState) : EditorState :=
  { s with dragItem := none }

/-- `handleUndo`: if the undo stack is non-empty, pop its last element and
remove every coordinate that is reference-equal (`!==`, i.e. same id) to
it from the list, then push it onto the front of the redo stack. -/
def handleUndo (s : EditorState) : EditorState :=
  match s.undoStack.getLast? with
  | none => s
  | some lastAction =>
    { s with
      undoStack := s.undoStack.dropLast
      coordinates := s.coordinates.filter (fun c => c.id != lastAction.id)
      redoStack := lastAction :: s.redoStack }

/-- `handleRedo`: if the redo stack is non-empty, shift its first element
off, append it to the coordinate list and push it onto the undo stack. -/
def handleRedo (s : EditorState) : EditorState :=
  match s.redoStack with
  | [] => s
  | lastAction :: rest =>
    { s with
      redoStack := rest
      coordinates := s.coordinates ++ [lastAction]
      undoStack := s.undoStack ++ [lastAction] }

/-- `toggleArea`: selecting the armed area again clears the selection,
anything else becomes the selection. -/
def toggleArea (s : EditorState) (area : String) : EditorState :=
  { s with selectedArea := if s.selectedArea = area then "" else area }

/-- A file offered by a file-input change event. -/
structure JsFile where
  name : String
deriving DecidableEq, Repr

/-- The background-image part of the parent-owned state:
`backgroundImg` (the stored file) and `backgroundImgUrl` (the preview
URL). -/
structure BgState where
  backgroundImg : Option JsFile
  backgroundImgUrl : Option String
deriving DecidableEq, Repr

/-- `handleFileChange`: if `e.target.files[0]` exists, store the file and
the object URL created from it; otherwise do nothing.  `createObjectURL`
abstracts `URL.createObjectURL`. -/
def handleFileChange (createObjectURL : JsFile → String) (s : BgState)
    (files : List JsFile) : BgState :=
  match files.head? with
  | none => s
  | some file =>
    { backgroundImg := some file
      backgroundImgUrl := some (createObjectURL file) }

/-- One user-input event, carrying the data the corresponding handler
reads from the DOM at that moment. -/
inductive Op where
  | imageClick (rect : Rect) (clientX clientY : ℚ)
  | dragStart (index : Nat) (clientX clientY : ℚ)
  | drag (rect : Rect) (clientX clientY : ℚ)
  | dragEnd
  | undo
  | redo
  | toggle (area : String)
deriving DecidableEq, Repr

/-- Dispatch one event to its handler. -/
def applyOp (s : EditorState) : Op → EditorState
  | .imageClick rect cx cy => handleImageClick s rect cx cy
  | .dragStart index cx cy => handleDragStart s index cx cy
  | .drag rect cx cy => handleDrag s rect cx cy
  | .dragEnd => handleDragEnd s
  | .undo => handleUndo s
  | .redo => handleRedo s
  | .toggle area => toggleArea s area

/-- Run a sequence of events. -/
def runOps (s : EditorState) (ops : List Op) : EditorState :=
  ops.foldl applyOp s

/-- The editor's initial state: empty list, empty stacks, no selection,
no drag session. -/
def initState : EditorState :=
  { coordinates := []
    undoStack := []
    redoStack := []
    selectedArea := ""
    dragItem := none
    dragStartX := 0
    dragStartY := 0
    nextId := 0 }

/-- A state the editor can reach by some sequence of events. -/
def Reachable (s : EditorState) : Prop :=
  ∃ ops : List Op, runOps initState ops = s

/-! ### List lemmas for the indexed map, the undo filter, and `set` -/

theorem length_jsMapIdxFrom (f : Nat → Marker → Marker) (k : Nat)
    (l : List Marker) : (jsMapIdxFrom f k l).length = l.length := by
  induction l generalizing k with
  | nil => rfl
  | cons c cs ih => simp [jsMapIdxFrom, ih]

theorem length_jsMapIdx (f : Nat → Marker → Marker) (l : List Marker) :
    (jsMapIdx f l).length = l.length :=
  length_jsMapIdxFrom f 0 l

theorem jsMapIdxFrom_eq_self (g : Marker → Marker) (i : Nat) :
    ∀ (k : Nat) (l : List Marker), (i < k ∨ k + l.length ≤ i) →
      jsMapIdxFrom (fun j c => if j = i then g c else c) k l = l := by
  intro k l
  induction l generalizing k with
  | nil => intro _; rfl
  | cons c cs ih =>
    intro h
    simp only [List.length_cons] at h
    have hk : k ≠ i := by omega
    have h' : i < k + 1 ∨ (k + 1) + cs.length ≤ i := by omega
    simp [jsMapIdxFrom, hk, ih (k + 1) h']

theorem jsMapIdxFrom_eq_set (g : Marker → Marker) (i : Nat) :
    ∀ (k : Nat) (l : List Marker) (c : Marker), k ≤ i → l[i - k]? = some c →
      jsMapIdxFrom (fun j c => if j = i then g c else c) k l = l.set (i - k) (g c) := by
  intro k l
  induction l generalizing k with
  | nil => intro c _ hc; simp at hc
  | cons a cs ih =>
    intro c hk hc
    by_cases hki : k = i
    · subst hki
      simp only [Nat.sub_self] at hc ⊢
      simp only [List.getElem?_cons_zero, Option.some.injEq] at hc
      subst hc
      simp [jsMapIdxFrom,
        jsMapIdxFrom_eq_self g k (k + 1) cs (Or.inl (Nat.lt_succ_self k))]
    · have hk1 : k + 1 ≤ i := by omega
      have hik : i - k = (i - (k + 1)) + 1 := by omega
      rw [hik] at hc ⊢
      simp only [List.getElem?_cons_succ] at hc
      simp [jsMapIdxFrom, hki, ih (k + 1) c hk1 hc]

theorem jsMapIdx_eq_set (g : Marker → Marker) (i : Nat) (l : List Marker)
    (c : Marker) (hc : l[i]? = some c) :
    jsMapIdx (fun j c => if j = i then g c else c) l = l.set i (g c) := by
  have := jsMapIdxFrom_eq_set g i 0 l c (Nat.zero_le i) (by simpa using hc)
  simpa [jsMapIdx] using this

theorem jsMapIdx_eq_self (g : Marker → Marker) (i : Nat) (l : List Marker)
    (hc : l[i]? = none) :
    jsMapIdx (fun j c => if j = i then g c else c) l = l := by
  have hlen : l.length ≤ i := List.getElem?_eq_none_iff.mp hc
  exact jsMapIdxFrom_eq_self g i 0 l (Or.inr (by omega))

/-- Replacing an element by a value not present in the list preserves
`Nodup`. -/
theorem nodup_set_of_not_mem {α : Type} {l : List α} {b : α}
    (hnd : l.Nodup) (hb : b ∉ l) : ∀ i : Nat, (l.set i b).Nodup := by
  induction l with
  | nil => intro i; simp
  | cons a cs ih =>
    intro i
    rcases List.nodup_cons.mp hnd with ⟨ha, hcs⟩
    match i with
    | 0 =>
      simp only [List.set_cons_zero, List.nodup_cons]
      exact ⟨fun hmem => hb (List.mem_cons_of_mem a hmem), hcs⟩
    | i + 1 =>
      simp only [List.set_cons_succ, List.nodup_cons]
      refine ⟨fun hmem => ?_, ih hcs (fun hbc => hb (List.mem_cons_of_mem a hbc)) i⟩
      rcases List.mem_or_eq_of_mem_set hmem with h | h
      · exact ha h
      · exact hb (h ▸ List.mem_cons_self a cs)

/-- The spec's description of the list mutation performed by `undo()`:
remove the first element reference-equal to `v` (same identity), leaving
any later elements in place. -/
def removeFirstRefEq (v : Marker) : List Marker → List Marker
  | [] => []
  | c :: cs => if c.id = v.id then cs else c :: removeFirstRefEq v cs

/-- On a list whose identities are pairwise distinct — as they are in
every state the editor reaches — the filter used by `handleUndo` removes
exactly the first (and only) element reference-equal to `v`. -/
theorem filter_eq_removeFirstRefEq (v : Marker) (l : List Marker)
    (hnd : (l.map Marker.id).Nodup) :
    l.filter (fun c => c.id != v.id) = removeFirstRefEq v l := by
  induction l with
  | nil => rfl
  | cons c cs ih =>
    simp only [List.map_cons, List.nodup_cons] at hnd
    by_cases hcv : c.id = v.id
    · have h1 : ¬ ((c.id != v.id) = true) := by simp [hcv]
      rw [@List.filter_cons_of_neg _ (fun c => c.id != v.id) c cs h1]
      simp only [removeFirstRefEq, if_pos hcv]
      refine List.filter_eq_self.mpr ?_
      intro a ha
      have hne : a.id ≠ c.id := fun he =>
        hnd.1 (he ▸ List.mem_map_of_mem Marker.id ha)
      simpa using (hcv ▸ hne)
    · have h1 : (c.id != v.id) = true := by simp [hcv]
      rw [@List.filter_cons_of_pos _ (fun c => c.id != v.id) c cs h1]
      simp only [removeFirstRefEq, if_neg hcv]
      rw [ih hnd.2]

/-! ### Characterizations of the handlers' branches -/

/-- The fresh marker object allocated by `handleImageClick`. -/
def newMarker (s : EditorState) (rect : Rect) (cx cy : ℚ) : Marker :=
  ⟨s.nextId, normX rect cx, normY rect cy, s.selectedArea⟩

theorem handleImageClick_armed (s : EditorState) (rect : Rect) (cx cy : ℚ)
    (h : s.selectedArea ≠ "") :
    handleImageClick s rect cx cy =
      { s with
        coordinates := s.coordinates ++ [newMarker s rect cx cy]
        undoStack := s.undoStack ++ [newMarker s rect cx cy]
        redoStack := []
        nextId := s.nextId + 1 } := by
  simp [handleImageClick, h, newMarker]

theorem handleDrag_none (s : EditorState) (rect : Rect) (cx cy : ℚ)
    (h : s.dragItem = none) : handleDrag s rect cx cy = s := by
  simp [handleDrag, h]

theorem handleDrag_oob (s : EditorState) (rect : Rect) (cx cy : ℚ) (i : Nat)
    (h : s.dragItem = some i)
    (hout : normX rect cx < 0 ∨ normX rect cx > 100 ∨
      normY rect cy < 0 ∨ normY rect cy > 100) :
    handleDrag s rect cx cy = s := by
  simp [handleDrag, h, hout]

theorem handleDrag_some (s : EditorState) (rect : Rect) (cx cy : ℚ) (i : Nat)
    (c : Marker) (h : s.dragItem = some i) (hc : s.coordinates[i]? = some c)
    (hin : ¬ (normX rect cx < 0 ∨ normX rect cx > 100 ∨
      normY rect cy < 0 ∨ normY rect cy > 100)) :
    handleDrag s rect cx cy =
      { s with
        coordinates :=
          s.coordinates.set i ⟨s.nextId, normX rect cx, normY rect cy, c.area⟩
        nextId := s.nextId + 1 } := by
  have hset := jsMapIdx_eq_set
    (fun cc => { cc with x := normX rect cx, y := normY rect cy, id := s.nextId })
    i s.coordinates c hc
  simp [handleDrag, h, hin, hset]

theorem handleDrag_stale (s : EditorState) (rect : Rect) (cx cy : ℚ) (i : Nat)
    (h : s.dragItem = some i) (hc : s.coordinates[i]? = none)
    (hin : ¬ (normX rect cx < 0 ∨ normX rect cx > 100 ∨
      normY rect cy < 0 ∨ normY rect cy > 100)) :
    handleDrag s rect cx cy = { s with nextId := s.nextId + 1 } := by
  have hself := jsMapIdx_eq_self
    (fun cc => { cc with x := normX rect cx, y := normY rect cy, id := s.nextId })
    i s.coordinates hc
  simp [handleDrag, h, hin, hself]

/-! ### The identity invariant: allocation ids are pairwise distinct -/

/-- All states the editor can reach allocate object identities from the
counter, so: identities are pairwise distinct inside the coordinate list,
the undo stack and the redo stack, every identity is below the counter,
and the redo stack shares no identity with the coordinate list or the
undo stack. -/
structure IdInv (s : EditorState) : Prop where
  coordsNodup : (s.coordinates.map Marker.id).Nodup
  undoNodup : (s.undoStack.map Marker.id).Nodup
  redoNodup : (s.redoStack.map Marker.id).Nodup
  coordsLt : ∀ m ∈ s.coordinates, m.id < s.nextId
  undoLt : ∀ m ∈ s.undoStack, m.id < s.nextId
  redoLt : ∀ m ∈ s.redoStack, m.id < s.nextId
  coordsRedoDisj : ∀ m ∈ s.coordinates, ∀ m' ∈ s.redoStack, m.id ≠ m'.id
  undoRedoDisj : ∀ m ∈ s.undoStack, ∀ m' ∈ s.redoStack, m.id ≠ m'.id

theorem nodup_map_append_singleton {l : List Marker} {v : Marker}
    (hnd : (l.map Marker.id).Nodup) (hv : ∀ m ∈ l, m.id ≠ v.id) :
    ((l ++ [v]).map Marker.id).Nodup := by
  rw [List.map_append]
  refine List.Nodup.append hnd (by simp) ?_
  intro a ha hb
  rcases List.mem_map.mp ha with ⟨m, hm, rfl⟩
  simp only [List.map_cons, List.map_nil, List.mem_singleton] at hb
  exact hv m hm hb

theorem inv_bump (s : EditorState) (n : Nat) (h : s.nextId ≤ n)
    (hinv : IdInv s) : IdInv { s with nextId := n } := by
  obtain ⟨c1, c2, c3, c4, c5, c6, c7, c8⟩ := hinv
  exact ⟨c1, c2, c3,
    fun m hm => lt_of_lt_of_le (c4 m hm) h,
    fun m hm => lt_of_lt_of_le (c5 m hm) h,
    fun m hm => lt_of_lt_of_le (c6 m hm) h, c7, c8⟩

theorem inv_handleImageClick (s : EditorState) (rect : Rect) (cx cy : ℚ)
    (hinv : IdInv s) : IdInv (handleImageClick s rect cx cy) := by
  obtain ⟨c1, c2, c3, c4, c5, c6, c7, c8⟩ := hinv
  by_cases h : s.selectedArea = ""
  · simpa [handleImageClick, h] using (⟨c1, c2, c3, c4, c5, c6, c7, c8⟩ : IdInv s)
  · rw [handleImageClick_armed s rect cx cy h]
    have hfresh : ∀ (l : List Marker), (∀ m ∈ l, m.id < s.nextId) →
        ∀ m ∈ l, m.id ≠ (newMarker s rect cx cy).id := by
      intro l hlt m hm he
      have := hlt m hm
      simp only [newMarker] at he
      omega
    refine ⟨?_, ?_, ?_, ?_, ?_, ?_, ?_, ?_⟩
    · exact nodup_map_append_singleton c1 (hfresh s.coordinates c4)
    · exact nodup_map_append_singleton c2 (hfresh s.undoStack c5)
    · simp
    · intro m hm
      rcases List.mem_append.mp hm with hm | hm
      · exact lt_trans (c4 m hm) (Nat.lt_succ_self _)
      · simp only [List.mem_singleton] at hm
        subst hm
        simp [newMarker]
    · intro m hm
      rcases List.mem_append.mp hm with hm | hm
      · exact lt_trans (c5 m hm) (Nat.lt_succ_self _)
      · simp only [List.mem_singleton] at hm
        subst hm
        simp [newMarker]
    · simp
    · simp
    · simp

theorem inv_handleDragStart (s : EditorState) (i : Nat) (cx cy : ℚ)
    (hinv : IdInv s) : IdInv (handleDragStart s i cx cy) := by
  obtain ⟨c1, c2, c3, c4, c5, c6, c7, c8⟩ := hinv
  exact ⟨c1, c2, c3, c4, c5, c6, c7, c8⟩

theorem inv_handleDragEnd (s : EditorState) (hinv : IdInv s) :
    IdInv (handleDragEnd s) := by
  obtain ⟨c1, c2, c3, c4, c5, c6, c7, c8⟩ := hinv
  exact ⟨c1, c2, c3, c4, c5, c6, c7, c8⟩

theorem inv_toggleArea (s : EditorState) (area : String) (hinv : IdInv s) :
    IdInv (toggleArea s area) := by
  obtain ⟨c1, c2, c3, c4, c5, c6, c7, c8⟩ := hinv
  exact ⟨c1, c2, c3, c4, c5, c6, c7, c8⟩

theorem inv_handleDrag (s : EditorState) (rect : Rect) (cx cy : ℚ)
    (hinv : IdInv s) : IdInv (handleDrag s rect cx cy) := by
  cases hd : s.dragItem with
  | none => rw [handleDrag_none s rect cx cy hd]; exact hinv
  | some i =>
    by_cases hb : normX rect cx < 0 ∨ normX rect cx > 100 ∨
        normY rect cy < 0 ∨ normY rect cy > 100
    · rw [handleDrag_oob s rect cx cy i hd hb]; exact hinv
    · cases hc : s.coordinates[i]? with
      | none =>
        rw [handleDrag_stale s rect cx cy i hd hc hb]
        exact inv_bump s (s.nextId + 1) (Nat.le_succ _) hinv
      | some c =>
        rw [handleDrag_some s rect cx cy i c hd hc hb]
        obtain ⟨c1, c2, c3, c4, c5, c6, c7, c8⟩ := hinv
        refine ⟨?_, c2, c3, ?_, ?_, ?_, ?_, c8⟩
        · rw [List.map_set]
          refine nodup_set_of_not_mem c1 ?_ i
          intro hmem
          rcases List.mem_map.mp hmem with ⟨m, hm, hid⟩
          have hid2 : m.id = s.nextId := hid
          exact absurd (c4 m hm) (by omega)
        · intro m hm
          rcases List.mem_or_eq_of_mem_set hm with hm | hm
          · exact lt_trans (c4 m hm) (Nat.lt_succ_self _)
          · subst hm; exact Nat.lt_succ_self _
        · intro m hm
          exact lt_trans (c5 m hm) (Nat.lt_succ_self _)
        · intro m hm
          exact lt_trans (c6 m hm) (Nat.lt_succ_self _)
        · intro m hm m' hm'
          rcases List.mem_or_eq_of_mem_set hm with hm | hm
          · exact c7 m hm m' hm'
          · subst hm
            have h6 := c6 m' hm'
            show s.nextId ≠ m'.id
            omega

theorem inv_handleUndo (s : EditorState) (hinv : IdInv s) :
    IdInv (handleUndo s) := by
  obtain ⟨c1, c2, c3, c4, c5, c6, c7, c8⟩ := hinv
  cases hu : s.undoStack.getLast? with
  | none =>
    simp only [handleUndo, hu]
    exact ⟨c1, c2, c3, c4, c5, c6, c7, c8⟩
  | some u =>
    have hmem : u ∈ s.undoStack := List.mem_of_getLast?_eq_some hu
    have hne : s.undoStack ≠ [] := by
      intro h0; rw [h0] at hu; simp at hu
    have hdecomp : s.undoStack.dropLast ++ [u] = s.undoStack := by
      have hgl := List.getLast?_eq_getLast s.undoStack hne
      rw [hu] at hgl
      have : u = s.undoStack.getLast hne := by
        exact Option.some.inj hgl
      rw [this]
      exact List.dropLast_concat_getLast hne
    have hdropu : ∀ m ∈ s.undoStack.dropLast, m.id ≠ u.id := by
      intro m hm he
      have h2 : ((s.undoStack.dropLast ++ [u]).map Marker.id).Nodup := by
        rw [hdecomp]; exact c2
      rw [List.map_append] at h2
      have hdisj := (List.nodup_append.mp h2).2.2
      exact hdisj (List.mem_map_of_mem Marker.id hm) (by simp [he])
    have hmemdl : ∀ m ∈ s.undoStack.dropLast, m ∈ s.undoStack := by
      intro m hm
      exact (List.dropLast_sublist s.undoStack).mem hm
    simp only [handleUndo, hu]
    refine ⟨?_, ?_, ?_, ?_, ?_, ?_, ?_, ?_⟩
    · exact List.Nodup.sublist ((List.filter_sublist _).map Marker.id) c1
    · exact List.Nodup.sublist ((List.dropLast_sublist _).map Marker.id) c2
    · rw [List.map_cons, List.nodup_cons]
      refine ⟨?_, c3⟩
      intro hmem2
      rcases List.mem_map.mp hmem2 with ⟨m', hm', hid⟩
      exact c8 u hmem m' hm' hid.symm
    · intro m hm
      exact c4 m (List.mem_filter.mp hm).1
    · intro m hm
      exact c5 m (hmemdl m hm)
    · intro m hm
      rcases List.mem_cons.mp hm with hm | hm
      · subst hm; exact c5 m hmem
      · exact c6 m hm
    · intro m hm m' hm'
      have hmf := List.mem_filter.mp hm
      rcases List.mem_cons.mp hm' with hm' | hm'
      · subst hm'
        simpa using hmf.2
      · exact c7 m hmf.1 m' hm'
    · intro m hm m' hm'
      rcases List.mem_cons.mp hm' with hm' | hm'
      · subst hm'
        exact hdropu m hm
      · exact c8 m (hmemdl m hm) m' hm'

theorem inv_handleRedo (s : EditorState) (hinv : IdInv s) :
    IdInv (handleRedo s) := by
  obtain ⟨c1, c2, c3, c4, c5, c6, c7, c8⟩ := hinv
  cases hr : s.redoStack with
  | nil =>
    simp only [handleRedo]
    rw [hr]
    exact ⟨c1, c2, c3, c4, c5, c6, c7, c8⟩
  | cons r rest =>
    rw [hr] at c3 c6 c7 c8
    have hrmem : ∀ m' ∈ rest, m' ∈ r :: rest := fun m' hm' =>
      List.mem_cons_of_mem r hm'
    have hrnodup : r.id ∉ rest.map Marker.id ∧ (rest.map Marker.id).Nodup := by
      have h3 := c3
      rw [List.map_cons, List.nodup_cons] at h3
      exact h3
    simp only [handleRedo]
    rw [hr]
    refine ⟨?_, ?_, ?_, ?_, ?_, ?_, ?_, ?_⟩
    · exact nodup_map_append_singleton c1
        (fun m hm => c7 m hm r (List.mem_cons_self r rest))
    · exact nodup_map_append_singleton c2
        (fun m hm => c8 m hm r (List.mem_cons_self r rest))
    · simpa using c3.sublist ((List.sublist_cons_self r rest).map Marker.id)
    · intro m hm
      rcases List.mem_append.mp hm with hm | hm
      · exact c4 m hm
      · simp only [List.mem_singleton] at hm
        subst hm
        exact c6 _ (List.mem_cons_self _ _)
    · intro m hm
      rcases List.mem_append.mp hm with hm | hm
      · exact c5 m hm
      · simp only [List.mem_singleton] at hm
        subst hm
        exact c6 _ (List.mem_cons_self _ _)
    · intro m hm
      exact c6 m (hrmem m hm)
    · intro m hm m' hm'
      rcases List.mem_append.mp hm with hm | hm
      · exact c7 m hm m' (hrmem m' hm')
      · simp only [List.mem_singleton] at hm
        subst hm
        intro he
        exact hrnodup.1 (he ▸ List.mem_map_of_mem Marker.id hm')
    · intro m hm m' hm'
      rcases List.mem_append.mp hm with hm | hm
      · exact c8 m hm m' (hrmem m' hm')
      · simp only [List.mem_singleton] at hm
        subst hm
        intro he
        exact hrnodup.1 (he ▸ List.mem_map_of_mem Marker.id hm')

theorem inv_applyOp (s : EditorState) (op : Op) (hinv : IdInv s) :
    IdInv (applyOp s op) := by
  cases op with
  | imageClick rect cx cy => exact inv_handleImageClick s rect cx cy hinv
  | dragStart i cx cy => exact inv_handleDragStart s i cx cy hinv
  | drag rect cx cy => exact inv_handleDrag s rect cx cy hinv
  | dragEnd => exact inv_handleDragEnd s hinv
  | undo => exact inv_handleUndo s hinv
  | redo => exact inv_handleRedo s hinv
  | toggle area => exact inv_toggleArea s area hinv

theorem inv_runOps (s : EditorState) (ops : List Op) (hinv : IdInv s) :
    IdInv (runOps s ops) := by
  induction ops generalizing s with
  | nil => exact hinv
  | cons op ops ih => exact ih (applyOp s op) (inv_applyOp s op hinv)

theorem inv_initState : IdInv initState := by
  refine ⟨?_, ?_, ?_, ?_, ?_, ?_, ?_, ?_⟩ <;> simp [initState]

theorem reachable_inv (s : EditorState) (hs : Reachable s) : IdInv s := by
  rcases hs with ⟨ops, h⟩
  exact h ▸ inv_runOps initState ops inv_initState

/-! ### The coordinate-bounds invariant -/

/-- The spec's bounds predicate on one marker: `0 ≤ x ≤ 100` and
`0 ≤ y ≤ 100`. -/
def InBounds (m : Marker) : Prop :=
  0 ≤ m.x ∧ m.x ≤ 100 ∧ 0 ≤ m.y ∧ m.y ≤ 100

/-- A placement event whose computed normalized coordinates lie in
`[0, 100]`.  `handleImageClick` applies no bounds check of its own, so
this is a side condition on the input, not something the code enforces. -/
def PlaceInBounds : Op → Prop
  | .imageClick rect cx cy =>
      0 ≤ normX rect cx ∧ normX rect cx ≤ 100 ∧
      0 ≤ normY rect cy ∧ normY rect cy ≤ 100
  | _ => True

/-- Every marker stored anywhere (coordinate list, undo stack, redo
stack) is within bounds. -/
def BoundsInv (s : EditorState) : Prop :=
  (∀ m ∈ s.coordinates, InBounds m) ∧
  (∀ m ∈ s.undoStack, InBounds m) ∧
  (∀ m ∈ s.redoStack, InBounds m)

theorem boundsInv_applyOp (s : EditorState) (op : Op) (hb : BoundsInv s)
    (hop : PlaceInBounds op) : BoundsInv (applyOp s op) := by
  obtain ⟨b1, b2, b3⟩ := hb
  cases op with
  | imageClick rect cx cy =>
    show BoundsInv (handleImageClick s rect cx cy)
    by_cases h : s.selectedArea = ""
    · simp only [handleImageClick, if_pos h]
      exact ⟨b1, b2, b3⟩
    · rw [handleImageClick_armed s rect cx cy h]
      have hnew : InBounds (newMarker s rect cx cy) := hop
      refine ⟨?_, ?_, by simp⟩
      · intro m hm
        rcases List.mem_append.mp hm with hm | hm
        · exact b1 m hm
        · simp only [List.mem_singleton] at hm
          subst hm
          exact hnew
      · intro m hm
        rcases List.mem_append.mp hm with hm | hm
        · exact b2 m hm
        · simp only [List.mem_singleton] at hm
          subst hm
          exact hnew
  | dragStart i cx cy => exact ⟨b1, b2, b3⟩
  | dragEnd => exact ⟨b1, b2, b3⟩
  | toggle area => exact ⟨b1, b2, b3⟩
  | drag rect cx cy =>
    show BoundsInv (handleDrag s rect cx cy)
    cases hd : s.dragItem with
    | none =>
      rw [handleDrag_none s rect cx cy hd]
      exact ⟨b1, b2, b3⟩
    | some i =>
      by_cases hbnd : normX rect cx < 0 ∨ normX rect cx > 100 ∨
          normY rect cy < 0 ∨ normY rect cy > 100
      · rw [handleDrag_oob s rect cx cy i hd hbnd]
        exact ⟨b1, b2, b3⟩
      · push_neg at hbnd
        obtain ⟨hx0, hx1, hy0, hy1⟩ := hbnd
        have hbnd' : ¬ (normX rect cx < 0 ∨ normX rect cx > 100 ∨
            normY rect cy < 0 ∨ normY rect cy > 100) := by
          push_neg
          exact ⟨hx0, hx1, hy0, hy1⟩
        cases hc : s.coordinates[i]? with
        | none =>
          rw [handleDrag_stale s rect cx cy i hd hc hbnd']
          exact ⟨b1, b2, b3⟩
        | some c =>
          rw [handleDrag_some s rect cx cy i c hd hc hbnd']
          refine ⟨?_, b2, b3⟩
          intro m hm
          rcases List.mem_or_eq_of_mem_set hm with hm | hm
          · exact b1 m hm
          · subst hm
            exact ⟨hx0, hx1, hy0, hy1⟩
  | undo =>
    show BoundsInv (handleUndo s)
    cases hu : s.undoStack.getLast? with
    | none =>
      simp only [handleUndo, hu]
      exact ⟨b1, b2, b3⟩
    | some u =>
      have hmem : u ∈ s.undoStack := List.mem_of_getLast?_eq_some hu
      simp only [handleUndo, hu]
      refine ⟨?_, ?_, ?_⟩
      · intro m hm
        exact b1 m (List.mem_filter.mp hm).1
      · intro m hm
        exact b2 m ((List.dropLast_sublist s.undoStack).mem hm)
      · intro m hm
        rcases List.mem_cons.mp hm with hm | hm
        · subst hm; exact b2 m hmem
        · exact b3 m hm
  | redo =>
    show BoundsInv (handleRedo s)
    cases hr : s.redoStack with
    | nil =>
      simp only [handleRedo]
      rw [hr]
      exact ⟨b1, b2, b3⟩
    | cons r rest =>
      rw [hr] at b3
      simp only [handleRedo]
      rw [hr]
      refine ⟨?_, ?_, ?_⟩
      · intro m hm
        rcases List.mem_append.mp hm with hm | hm
        · exact b1 m hm
        · simp only [List.mem_singleton] at hm
          subst hm
          exact b3 _ (List.mem_cons_self _ _)
      · intro m hm
        rcases List.mem_append.mp hm with hm | hm
        · exact b2 m hm
        · simp only [List.mem_singleton] at hm
          subst hm
          exact b3 _ (List.mem_cons_self _ _)
      · intro m hm
        exact b3 m (List.mem_cons_of_mem r hm)

theorem boundsInv_runOps (s : EditorState) (ops : List Op)
    (hb : BoundsInv s) (h : ∀ op ∈ ops, PlaceInBounds op) :
    BoundsInv (runOps s ops) := by
  induction ops generalizing s with
  | nil => exact hb
  | cons op ops ih =>
    exact ih (applyOp s op)
      (boundsInv_applyOp s op hb (h op (List.mem_cons_self op ops)))
      (fun op' hop' => h op' (List.mem_cons_of_mem op hop'))

theorem boundsInv_initState : BoundsInv initState := by
  refine ⟨?_, ?_, ?_⟩ <;> simp [initState]

/-! ### Concrete demonstration states -/

/-- A 100×100 image box anchored at the origin. -/
def rect0 : Rect := ⟨0, 0, 100, 100⟩

/-- Arm the "top" area, then click at the point mapping to `(30, 40)`. -/
def demoTrace : List Op := [Op.toggle "top", Op.imageClick rect0 30 40]

/-- The state reached by `demoTrace`. -/
def demoState : EditorState := runOps initState demoTrace

/-- The marker placed by `demoTrace`. -/
def demoMarker : Marker := ⟨0, normX rect0 30, normY rect0 40, "top"⟩

/-- `demoTrace` followed by pressing down on marker 0. -/
def dragTrace : List Op := demoTrace ++ [Op.dragStart 0 30 40]

/-- The state reached by `dragTrace`: marker 0 is being dragged. -/
def dragState : EditorState := runOps initState dragTrace

/-- The state reached by `demoTrace` followed by an undo. -/
def undoneState : EditorState := runOps initState (demoTrace ++ [Op.undo])

/-- A state whose drag session points at an index with no marker. -/
def staleDragState : EditorState := { initState with dragItem := some 0 }

/-- Arm the "top" area, then click at a point mapping to `(150, 50)`,
outside the image box. -/
def oobTrace : List Op := [Op.toggle "top", Op.imageClick rect0 150 50]

/-- The out-of-bounds marker recorded by `oobTrace`. -/
def oobMarker : Marker := ⟨0, normX rect0 150, normY rect0 50, "top"⟩

/-! ### The claims -/

/-- C1: on every reachable state, `undo()` is a no-op on an empty Undo
Stack, and otherwise removes the most recently pushed value from the Undo
Stack, removes the first element of the Coordinate List reference-equal
to it (leaving any later elements in place — `removeFirstRefEq`), and
pushes that value onto the front of the Redo Stack.  Reachability
supplies the fact that object identities in the Coordinate List are
pairwise distinct, under which the code's removing filter removes exactly
the first (and only) reference-equal element. -/
theorem undo_removes_first_ref_equal (s : EditorState) (hs : Reachable s) :
    (s.undoStack = [] → handleUndo s = s) ∧
    ∀ (front : List Marker) (last : Marker), s.undoStack = front ++ [last] →
      handleUndo s =
        { s with
          undoStack := front
          coordinates := removeFirstRefEq last s.coordinates
          redoStack := last :: s.redoStack } := by
  constructor
  · intro h
    simp [handleUndo, h]
  · intro front last h
    have hgl : s.undoStack.getLast? = some last := by
      rw [h]; exact List.getLast?_concat front
    have hdl : s.undoStack.dropLast = front := by
      rw [h]; exact List.dropLast_concat
    have hnd := (reachable_inv s hs).coordsNodup
    simp only [handleUndo, hgl, hdl,
      filter_eq_removeFirstRefEq last s.coordinates hnd]

theorem undo_removes_first_ref_equal_witness :
    handleUndo demoState =
      { demoState with
        undoStack := []
        coordinates := removeFirstRefEq demoMarker demoState.coordinates
        redoStack := demoMarker :: demoState.redoStack } :=
  (undo_removes_first_ref_equal demoState ⟨demoTrace, rfl⟩).2 [] demoMarker rfl

/-- C2 counterexample: the bounds invariant fails on a state reachable by
the editor's own operations.  Arming an area and clicking at a pointer
position mapping to `(150, 50)` — possible because `handleImageClick`
applies no bounds check — records a marker with `x = 150 > 100` in the
Coordinate List. -/
theorem coords_bounds_fail_on_oob_place :
    oobMarker ∈ (runOps initState oobTrace).coordinates ∧
    oobMarker.x > 100 := by
  constructor
  · exact List.mem_cons_self _ _
  · show normX rect0 150 > 100
    norm_num [normX, rect0]

/-- C2 (amended): in every state reachable by a sequence of the editor's
operations in which each `placeMarker` event's computed coordinates lie in
`[0, 100]`, every Marker in the Coordinate List satisfies
`0 ≤ x ≤ 100` and `0 ≤ y ≤ 100`.  (Drag updates are bounds-checked by the
code; placement is not, so the restriction on placement events is
required.) -/
theorem coords_bounds_of_inbounds_places (ops : List Op)
    (h : ∀ op ∈ ops, PlaceInBounds op) :
    ∀ m ∈ (runOps initState ops).coordinates,
      0 ≤ m.x ∧ m.x ≤ 100 ∧ 0 ≤ m.y ∧ m.y ≤ 100 := by
  intro m hm
  exact (boundsInv_runOps initState ops boundsInv_initState h).1 m hm

theorem coords_bounds_of_inbounds_places_witness :
    0 ≤ demoMarker.x ∧ demoMarker.x ≤ 100 ∧
    0 ≤ demoMarker.y ∧ demoMarker.y ≤ 100 :=
  coords_bounds_of_inbounds_places demoTrace
    (by
      intro op hop
      simp only [demoTrace, List.mem_cons, List.not_mem_nil, or_false] at hop
      rcases hop with h | h
      · subst h; exact trivial
      · subst h
        show 0 ≤ normX rect0 30 ∧ normX rect0 30 ≤ 100 ∧
          0 ≤ normY rect0 40 ∧ normY rect0 40 ≤ 100
        norm_num [normX, normY, rect0])
    demoMarker (List.mem_cons_self _ _)

/-- C3: with an armed area, `placeMarker` computes
`x = (pointerX - imageLeft) / imageWidth * 100` (and `y` symmetrically),
with no bounds check, appends the Marker `{x, y, area}` to the end of the
Coordinate List, pushes the identical Marker value onto the Undo Stack,
and leaves the Redo Stack empty regardless of its prior contents. -/
theorem place_appends_and_clears_redo (s : EditorState) (rect : Rect)
    (cx cy : ℚ) (h : s.selectedArea ≠ "") :
    handleImageClick s rect cx cy =
      { s with
        coordinates := s.coordinates ++
          [⟨s.nextId, (cx - rect.left) / rect.width * 100,
            (cy - rect.top) / rect.height * 100, s.selectedArea⟩]
        undoStack := s.undoStack ++
          [⟨s.nextId, (cx - rect.left) / rect.width * 100,
            (cy - rect.top) / rect.height * 100, s.selectedArea⟩]
        redoStack := []
        nextId := s.nextId + 1 } := by
  rw [handleImageClick_armed s rect cx cy h]
  rfl

theorem place_appends_and_clears_redo_witness :
    handleImageClick demoState rect0 60 50 =
      { demoState with
        coordinates := demoState.coordinates ++
          [⟨demoState.nextId, (60 - rect0.left) / rect0.width * 100,
            (50 - rect0.top) / rect0.height * 100, demoState.selectedArea⟩]
        undoStack := demoState.undoStack ++
          [⟨demoState.nextId, (60 - rect0.left) / rect0.width * 100,
            (50 - rect0.top) / rect0.height * 100, demoState.selectedArea⟩]
        redoStack := []
        nextId := demoState.nextId + 1 } :=
  place_appends_and_clears_redo demoState rect0 60 50 (by decide)

/-- C4: with an active drag session on marker `i`, an `updateDrag` whose
recomputed `x` or `y` falls outside `[0, 100]` changes nothing at all
(the whole state, so the Coordinate List is unchanged and the session
stays active), and a subsequent in-bounds `updateDrag` still moves the
dragged marker to the newly computed coordinates, preserving its area. -/
theorem drag_oob_discarded_then_inbounds_applies (s : EditorState)
    (r1 r2 : Rect) (cx1 cy1 cx2 cy2 : ℚ) (i : Nat) (m : Marker)
    (hd : s.dragItem = some i) (hm : s.coordinates[i]? = some m)
    (hout : normX r1 cx1 < 0 ∨ normX r1 cx1 > 100 ∨
      normY r1 cy1 < 0 ∨ normY r1 cy1 > 100)
    (hin : 0 ≤ normX r2 cx2 ∧ normX r2 cx2 ≤ 100 ∧
      0 ≤ normY r2 cy2 ∧ normY r2 cy2 ≤ 100) :
    handleDrag s r1 cx1 cy1 = s ∧
    (handleDrag (handleDrag s r1 cx1 cy1) r2 cx2 cy2).coordinates[i]? =
      some ⟨s.nextId, normX r2 cx2, normY r2 cy2, m.area⟩ := by
  have h1 := handleDrag_oob s r1 cx1 cy1 i hd hout
  refine ⟨h1, ?_⟩
  rw [h1]
  obtain ⟨hx0, hx1, hy0, hy1⟩ := hin
  have hnbd : ¬ (normX r2 cx2 < 0 ∨ normX r2 cx2 > 100 ∨
      normY r2 cy2 < 0 ∨ normY r2 cy2 > 100) := by
    push_neg
    exact ⟨hx0, hx1, hy0, hy1⟩
  rw [handleDrag_some s r2 cx2 cy2 i m hd hm hnbd]
  have hlen : i < s.coordinates.length := by
    rcases List.getElem?_eq_some_iff.mp hm with ⟨hl, _⟩
    exact hl
  simp [List.getElem?_set_self hlen]

theorem drag_oob_discarded_then_inbounds_applies_witness :
    handleDrag dragState rect0 150 50 = dragState ∧
    (handleDrag (handleDrag dragState rect0 150 50) rect0 60 50).coordinates[0]? =
      some ⟨dragState.nextId, normX rect0 60, normY rect0 50, demoMarker.area⟩ :=
  drag_oob_discarded_then_inbounds_applies dragState rect0 rect0 150 50 60 50
    0 demoMarker rfl rfl
    (by norm_num [normX, normY, rect0])
    (by norm_num [normX, normY, rect0])

/-- C5: with an active drag session on a valid index `i` and in-bounds
recomputed coordinates, `updateDrag` replaces only the `x` and `y` of the
marker at `i` (preserving its `area`), keeps the list's length and order,
leaves every other marker and both stacks (and the armed area) unchanged;
with no active drag session it changes nothing. -/
theorem drag_update_frame (s : EditorState) (rect : Rect) (cx cy : ℚ) :
    (s.dragItem = none → handleDrag s rect cx cy = s) ∧
    (∀ (i : Nat) (m : Marker), s.dragItem = some i →
      s.coordinates[i]? = some m →
      0 ≤ normX rect cx → normX rect cx ≤ 100 →
      0 ≤ normY rect cy → normY rect cy ≤ 100 →
      (handleDrag s rect cx cy).coordinates.length = s.coordinates.length ∧
      (handleDrag s rect cx cy).coordinates[i]? =
        some ⟨s.nextId, normX rect cx, normY rect cy, m.area⟩ ∧
      (∀ j : Nat, j ≠ i →
        (handleDrag s rect cx cy).coordinates[j]? = s.coordinates[j]?) ∧
      (handleDrag s rect cx cy).undoStack = s.undoStack ∧
      (handleDrag s rect cx cy).redoStack = s.redoStack ∧
      (handleDrag s rect cx cy).selectedArea = s.selectedArea) := by
  constructor
  · exact handleDrag_none s rect cx cy
  · intro i m hd hm hx0 hx1 hy0 hy1
    have hnbd : ¬ (normX rect cx < 0 ∨ normX rect cx > 100 ∨
        normY rect cy < 0 ∨ normY rect cy > 100) := by
      push_neg
      exact ⟨hx0, hx1, hy0, hy1⟩
    rw [handleDrag_some s rect cx cy i m hd hm hnbd]
    have hlen : i < s.coordinates.length := by
      rcases List.getElem?_eq_some_iff.mp hm with ⟨hl, _⟩
      exact hl
    refine ⟨by simp, ?_, ?_, rfl, rfl, rfl⟩
    · simp [List.getElem?_set_self hlen]
    · intro j hj
      exact List.getElem?_set_ne (Ne.symm hj)

theorem drag_update_frame_witness :
    (handleDrag dragState rect0 60 50).coordinates[0]? =
      some ⟨dragState.nextId, normX rect0 60, normY rect0 50, demoMarker.area⟩ ∧
    (handleDrag dragState rect0 60 50).coordinates[1]? =
      dragState.coordinates[1]? ∧
    (handleDrag dragState rect0 60 50).undoStack = dragState.undoStack ∧
    (handleDrag dragState rect0 60 50).redoStack = dragState.redoStack :=
  ⟨((drag_update_frame dragState rect0 60 50).2 0 demoMarker rfl rfl
      (by norm_num [normX, rect0]) (by norm_num [normX, rect0])
      (by norm_num [normY, rect0]) (by norm_num [normY, rect0])).2.1,
   ((drag_update_frame dragState rect0 60 50).2 0 demoMarker rfl rfl
      (by norm_num [normX, rect0]) (by norm_num [normX, rect0])
      (by norm_num [normY, rect0]) (by norm_num [normY, rect0])).2.2.1 1
      (by decide),
   ((drag_update_frame dragState rect0 60 50).2 0 demoMarker rfl rfl
      (by norm_num [normX, rect0]) (by norm_num [normX, rect0])
      (by norm_num [normY, rect0]) (by norm_num [normY, rect0])).2.2.2.1,
   ((drag_update_frame dragState rect0 60 50).2 0 demoMarker rfl rfl
      (by norm_num [normX, rect0]) (by norm_num [normX, rect0])
      (by norm_num [normY, rect0]) (by norm_num [normY, rect0])).2.2.2.2.1⟩

/-- C6: `redo()` is a no-op on an empty Redo Stack, and otherwise removes
the first (front) value from the Redo Stack, appends it to the end of the
Coordinate List, and pushes it onto the Undo Stack. -/
theorem redo_shifts_front (s : EditorState) :
    (s.redoStack = [] → handleRedo s = s) ∧
    ∀ (r : Marker) (rest : List Marker), s.redoStack = r :: rest →
      handleRedo s =
        { s with
          redoStack := rest
          coordinates := s.coordinates ++ [r]
          undoStack := s.undoStack ++ [r] } := by
  constructor
  · intro h
    simp only [handleRedo]
    rw [h]
  · intro r rest h
    simp only [handleRedo]
    rw [h]

theorem redo_shifts_front_witness :
    (handleRedo initState = initState) ∧
    handleRedo undoneState =
      { undoneState with
        redoStack := []
        coordinates := undoneState.coordinates ++ [demoMarker]
        undoStack := undoneState.undoStack ++ [demoMarker] } :=
  ⟨(redo_shifts_front initState).1 rfl,
   (redo_shifts_front undoneState).2 demoMarker [] rfl⟩

/-- C7: on any state with a non-empty Undo Stack, `undo()` immediately
followed by `redo()` yields a Coordinate List equal to the undone list
with the removed marker value appended at the end, and restores the Undo
Stack and Redo Stack to exactly their contents before the undo. -/
theorem undo_then_redo_restores (s : EditorState) (front : List Marker)
    (last : Marker) (h : s.undoStack = front ++ [last]) :
    (handleRedo (handleUndo s)).coordinates =
      s.coordinates.filter (fun c => c.id != last.id) ++ [last] ∧
    (handleRedo (handleUndo s)).undoStack = s.undoStack ∧
    (handleRedo (handleUndo s)).redoStack = s.redoStack := by
  have hgl : s.undoStack.getLast? = some last := by
    rw [h]; exact List.getLast?_concat front
  have hundo : handleUndo s =
      { s with
        undoStack := s.undoStack.dropLast
        coordinates := s.coordinates.filter (fun c => c.id != last.id)
        redoStack := last :: s.redoStack } := by
    simp only [handleUndo, hgl]
  rw [hundo]
  refine ⟨rfl, ?_, rfl⟩
  show s.undoStack.dropLast ++ [last] = s.undoStack
  rw [h, List.dropLast_concat]

theorem undo_then_redo_restores_witness :
    (handleRedo (handleUndo demoState)).coordinates =
      demoState.coordinates.filter (fun c => c.id != demoMarker.id) ++
        [demoMarker] ∧
    (handleRedo (handleUndo demoState)).undoStack = demoState.undoStack ∧
    (handleRedo (handleUndo demoState)).redoStack = demoState.redoStack :=
  undo_then_redo_restores demoState [] demoMarker rfl

/-- C8: every out-of-precondition input is a silent no-op: a click with
no armed area, a drag update with no active session, undo on an empty
Undo Stack, redo on an empty Redo Stack, and a drag session pointing at
an index with no marker all leave the Coordinate List, Undo Stack, Redo
Stack and armed area unchanged (the first four leave the whole state
unchanged), and every handler is total, so no error is signalled. -/
theorem noop_out_of_precondition (s : EditorState) (rect : Rect)
    (cx cy : ℚ) :
    (s.selectedArea = "" → handleImageClick s rect cx cy = s) ∧
    (s.dragItem = none → handleDrag s rect cx cy = s) ∧
    (s.undoStack = [] → handleUndo s = s) ∧
    (s.redoStack = [] → handleRedo s = s) ∧
    (∀ i : Nat, s.dragItem = some i → s.coordinates[i]? = none →
      (handleDrag s rect cx cy).coordinates = s.coordinates ∧
      (handleDrag s rect cx cy).undoStack = s.undoStack ∧
      (handleDrag s rect cx cy).redoStack = s.redoStack ∧
      (handleDrag s rect cx cy).selectedArea = s.selectedArea) := by
  refine ⟨?_, handleDrag_none s rect cx cy, ?_, ?_, ?_⟩
  · intro h
    simp [handleImageClick, h]
  · intro h
    simp [handleUndo, h]
  · intro h
    simp only [handleRedo]
    rw [h]
  · intro i hd hc
    by_cases hb : normX rect cx < 0 ∨ normX rect cx > 100 ∨
        normY rect cy < 0 ∨ normY rect cy > 100
    · rw [handleDrag_oob s rect cx cy i hd hb]
      exact ⟨rfl, rfl, rfl, rfl⟩
    · rw [handleDrag_stale s rect cx cy i hd hc hb]
      exact ⟨rfl, rfl, rfl, rfl⟩

theorem noop_out_of_precondition_witness :
    (handleImageClick initState rect0 30 40 = initState) ∧
    (handleDrag initState rect0 30 40 = initState) ∧
    (handleUndo initState = initState) ∧
    (handleRedo initState = initState) ∧
    ((handleDrag staleDragState rect0 30 40).coordinates =
        staleDragState.coordinates ∧
      (handleDrag staleDragState rect0 30 40).undoStack =
        staleDragState.undoStack ∧
      (handleDrag staleDragState rect0 30 40).redoStack =
        staleDragState.redoStack ∧
      (handleDrag staleDragState rect0 30 40).selectedArea =
        staleDragState.selectedArea) :=
  ⟨(noop_out_of_precondition initState rect0 30 40).1 rfl,
   (noop_out_of_precondition initState rect0 30 40).2.1 rfl,
   (noop_out_of_precondition initState rect0 30 40).2.2.1 rfl,
   (noop_out_of_precondition initState rect0 30 40).2.2.2.1 rfl,
   (noop_out_of_precondition staleDragState rect0 30 40).2.2.2.2 0 rfl rfl⟩

/-- C9: `selectArea(a)` acts as a toggle — selecting the armed area again
clears the selection, selecting a different area arms it — and changes
neither the Coordinate List nor the Undo Stack nor the Redo Stack. -/
theorem toggle_area_selection (s : EditorState) (area : String) :
    (toggleArea s area).coordinates = s.coordinates ∧
    (toggleArea s area).undoStack = s.undoStack ∧
    (toggleArea s area).redoStack = s.redoStack ∧
    (s.selectedArea = area → (toggleArea s area).selectedArea = "") ∧
    (s.selectedArea ≠ area → (toggleArea s area).selectedArea = area) := by
  refine ⟨rfl, rfl, rfl, ?_, ?_⟩
  · intro h
    simp [toggleArea, h]
  · intro h
    simp [toggleArea, h]

theorem toggle_area_selection_witness :
    ((toggleArea initState "top").selectedArea = "top") ∧
    ((toggleArea demoState "top").selectedArea = "") :=
  ⟨(toggle_area_selection initState "top").2.2.2.2 (by decide),
   (toggle_area_selection demoState "top").2.2.2.1 (by decide)⟩

/-- C10: a background-image file-selection event with no file leaves the
stored background image file and the preview URL unchanged; an event
carrying a file replaces both (the file itself, and the object URL
created from it). -/
theorem file_change_requires_file (createObjectURL : JsFile → String)
    (s : BgState) :
    handleFileChange createObjectURL s [] = s ∧
    ∀ (f : JsFile) (rest : List JsFile),
      handleFileChange createObjectURL s (f :: rest) =
        { backgroundImg := some f
          backgroundImgUrl := some (createObjectURL f) } :=
  ⟨rfl, fun _ _ => rfl⟩
